import Mathlib

/-!
Verification development for the LeannVault content-addressed file tracker
(`src/leannvault/core/tracker.py`, `core/indexer.py`, `core/searcher.py`,
`cli/main.py`).

Shallow embedding conventions:
* File contents are byte lists (`Content := List Nat`).
* SHA-256 is modelled as an injective, never-empty content identity
  (`compute_hash c = 256 :: c`): the spec (section 4.1) requires a
  deterministic identity of the byte content alone with cryptographically
  negligible collisions, so the model treats the hash as collision-free;
  the `256` head makes the identity distinct from the empty string, as a
  real hex digest always is.
* The filesystem is a finite association list from absolute path strings
  to `Option Content`; `some content` is a readable file, `none` is a file
  that exists (so `Path.exists()` is true) but cannot be read (so opening
  it for hashing raises an `IOError`).
* Timestamps (`datetime.now().isoformat()` in source) are naturals passed
  in by the caller; ISO-8601 strings compare lexicographically in time
  order, which the naturals model directly.  A bulk pass receives one
  timestamp for all its per-record updates.
* SQLite rows live in a list in insertion order.  `UPDATE ... WHERE
  content_hash = ?` is a map touching every row matching the key (the
  primary key makes at most one row match in reachable states);
  `INSERT ... ON CONFLICT` updates in place or appends; `rowcount > 0`
  is `List.any`; an unordered `SELECT ... fetchone` is `List.find?` in
  row order.
* Operations that can raise (`FileNotFoundError` on a missing path,
  `IOError` on an unreadable file) return `Option`, `none` being the
  raised exception escaping to the caller.
-/

/-- File bytes. -/
abbrev Content := List Nat

/-- A content identity (hex digest in source). -/
abbrev Hash := List Nat

/-- `FileTracker.compute_hash`: SHA-256 of the file bytes, modelled as an
injective never-empty function of the content (see module docstring). -/
def compute_hash (c : Content) : Hash := 256 :: c

/-- The filesystem: path, and `some` bytes when readable / `none` when the
path exists but reading raises. -/
abbrev FS := List (String × Option Content)

/-- Lookup of a path: `none` when the path does not exist at all. -/
def fsLookup (fs : FS) (p : String) : Option (Option Content) :=
  (fs.find? (fun e => e.1 == p)).map (fun e => e.2)

/-- `Path.exists()`. -/
def fsExists (fs : FS) (p : String) : Bool :=
  (fsLookup fs p).isSome

/-- Reading a file's bytes: `none` when the path is absent or unreadable
(`open` raises). -/
def fsRead (fs : FS) (p : String) : Option Content :=
  (fsLookup fs p).getD none

/-- ASCII lower-casing of one character (SQLite's `LIKE` folds case for
ASCII only; `str.lower()` on the ASCII extensions used here agrees). -/
def lowerChar (c : Char) : Char :=
  if 'A' ≤ c ∧ c ≤ 'Z' then Char.ofNat (c.toNat + 32) else c

/-- ASCII lower-casing of a string. -/
def lowerStr (s : String) : String :=
  String.mk (s.data.map lowerChar)

/-- Splitting a character list at a separator, with Python `str.split`
semantics (an empty input yields one empty field, a leading separator an
empty first field). -/
def splitChars (sep : Char) : List Char → List (List Char)
  | [] => [[]]
  | c :: cs =>
    let r := splitChars sep cs
    if c = sep then [] :: r else (c :: r.headD []) :: r.tail

/-- Final path component, as `pathlib` name extraction. -/
def pathName (p : String) : List Char :=
  (splitChars '/' p.data).getLastD []

/-- `pathlib.PurePath.suffix`: the extension of the final component,
`name[i:]` for the last dot index `i` when `0 < i < len(name) - 1`,
otherwise the empty string. -/
def pathSuffix (p : String) : String :=
  let cs := pathName p
  match cs.reverse.findIdx? (fun c => c == '.') with
  | none => ""
  | some j =>
    let i := cs.length - 1 - j
    if 0 < i ∧ i + 1 < cs.length then String.mk (cs.drop i) else ""

/-- `file_path.suffix.lower()`. -/
def suffixLower (p : String) : String :=
  lowerStr (pathSuffix p)

/-- `Indexer.SUPPORTED_EXTENSIONS`. -/
def SUPPORTED_EXTENSIONS : List String :=
  [".pdf", ".pptx", ".docx", ".json"]

/-- Whether a path's lower-cased suffix is a supported content kind. -/
def supportedFile (p : String) : Bool :=
  SUPPORTED_EXTENSIONS.contains (suffixLower p)

/-- Python `str.strip()` whitespace. -/
def isPySpace (c : Char) : Bool :=
  c = ' ' || c = '\t' || c = '\n' || c = '\r' || c = '\x0b' || c = '\x0c'

/-- Python `str.strip()`. -/
def strip (t : String) : String :=
  String.mk (((t.data.dropWhile isPySpace).reverse.dropWhile isPySpace).reverse)

/-- A recursive `directory.glob("**/*")` hit: the path is strictly below
the directory.  (The claims all concern the default recursive scan.) -/
def isUnder (dir p : String) : Bool :=
  List.isPrefixOf (dir.data ++ ['/']) p.data

/-- The supported files produced by walking `dir` recursively, in
filesystem enumeration order (the model walks the `FS` list in order). -/
def globSupported (fs : FS) (dir : String) : List String :=
  (fs.filter (fun e => isUnder dir e.1 && supportedFile e.1)).map (fun e => e.1)

/-- SQLite `LIKE` matching on character lists: `%` matches any sequence,
`_` matches any single character, ordinary characters match up to ASCII
case folding. -/
def likeMatch : List Char → List Char → Bool
  | [], ts => ts.isEmpty
  | p :: ps, ts =>
    if p = '%' then ts.tails.any (fun t => likeMatch ps t)
    else
      match ts with
      | [] => false
      | t :: ts' => (p = '_' || lowerChar p = lowerChar t) && likeMatch ps ts'

/-- One row of the `files` table (`FileRecord` dataclass in source). -/
structure FileRecord where
  content_hash : Hash
  current_path : String
  original_path : String
  file_type : String
  size_bytes : Nat
  indexed_at : Nat
  last_seen_at : Nat
  is_valid : Bool
deriving DecidableEq, Repr

/-- The `files` table, rows in insertion order. -/
abbrev Store := List FileRecord

/-- Newest-first comparison used by `ORDER BY indexed_at DESC`. -/
def newerFirst (a b : FileRecord) : Prop :=
  b.indexed_at ≤ a.indexed_at

instance : DecidableRel newerFirst :=
  fun a b => inferInstanceAs (Decidable (b.indexed_at ≤ a.indexed_at))

instance : IsTotal FileRecord newerFirst :=
  ⟨fun a b => Nat.le_total b.indexed_at a.indexed_at⟩

instance : IsTrans FileRecord newerFirst :=
  ⟨fun _ _ _ h1 h2 => Nat.le_trans h2 h1⟩

/-- `ORDER BY indexed_at DESC` (stable sort; SQLite leaves tie order
unspecified, so any permutation-sound sort is a faithful model). -/
def sortNewest (l : List FileRecord) : List FileRecord :=
  l.insertionSort newerFirst

namespace FileTracker

/-- `FileTracker.get_by_hash`: `SELECT * FROM files WHERE content_hash = ?`
with `fetchone`. -/
def get_by_hash (s : Store) (h : Hash) : Option FileRecord :=
  s.find? (fun r => r.content_hash == h)

/-- `FileTracker.get_by_path`: `SELECT * FROM files WHERE current_path = ?`
with `fetchone`. -/
def get_by_path (s : Store) (p : String) : Option FileRecord :=
  s.find? (fun r => r.current_path == p)

/-- `FileTracker.add_file`: raises (`none`) when the path is missing or the
file cannot be hashed; otherwise `INSERT ... ON CONFLICT(content_hash) DO
UPDATE SET current_path, last_seen_at, is_valid = 1`.  Call sites either
omit `content_hash` or pass the hash just computed from the same file, so
the model recomputes it; no call site passes `original_path`, so it
defaults to the current path. -/
def add_file (fs : FS) (s : Store) (p : String) (now : Nat) : Option Store :=
  if ¬ fsExists fs p then none
  else
    match fsRead fs p with
    | none => none
    | some c =>
      let h := compute_hash c
      some (if s.any (fun r => r.content_hash == h)
        then s.map (fun r =>
          if r.content_hash == h then
            { r with current_path := p, last_seen_at := now, is_valid := true }
          else r)
        else s ++ [{ content_hash := h, current_path := p, original_path := p,
                     file_type := suffixLower p, size_bytes := c.length,
                     indexed_at := now, last_seen_at := now, is_valid := true }])

/-- `FileTracker.update_path`: `UPDATE files SET current_path = ?,
last_seen_at = ?, is_valid = 1 WHERE content_hash = ?`; the boolean is
`rowcount > 0`. -/
def update_path (s : Store) (h : Hash) (p : String) (now : Nat) : Store × Bool :=
  (s.map (fun r =>
    if r.content_hash == h then
      { r with current_path := p, last_seen_at := now, is_valid := true }
    else r),
   s.any (fun r => r.content_hash == h))

/-- `FileTracker.mark_invalid`: `UPDATE files SET is_valid = 0 WHERE
content_hash = ?`; the boolean is `rowcount > 0`. -/
def mark_invalid (s : Store) (h : Hash) : Store × Bool :=
  (s.map (fun r =>
    if r.content_hash == h then { r with is_valid := false } else r),
   s.any (fun r => r.content_hash == h))

/-- `FileTracker.delete`: `DELETE FROM files WHERE content_hash = ?`. -/
def delete (s : Store) (h : Hash) : Store × Bool :=
  (s.filter (fun r => ¬ r.content_hash == h),
   s.any (fun r => r.content_hash == h))

/-- `FileTracker.list_all`: optional validity filter, then
`ORDER BY indexed_at DESC` (the claims never exercise the `limit`/`offset`
pagination, which the model therefore omits). -/
def list_all (s : Store) (valid_only : Bool) : List FileRecord :=
  sortNewest (if valid_only then s.filter (fun r => r.is_valid) else s)

/-- `FileTracker.search_files`: `SELECT * FROM files WHERE current_path
LIKE ? ORDER BY indexed_at DESC LIMIT ?` with pattern `%query%`. -/
def search_files (s : Store) (q : String) (limit : Nat) : List FileRecord :=
  (sortNewest (s.filter (fun r =>
    likeMatch ('%' :: (q.data ++ ['%'])) r.current_path.data))).take limit

/-- `FileTracker.count`. -/
def count (s : Store) (valid_only : Bool) : Nat :=
  if valid_only then (s.filter (fun r => r.is_valid)).length else s.length

/-- The store effect of one step of `verify_paths` for one snapshot row. -/
def verifyStep (fs : FS) (now : Nat) (st : Store) (r : FileRecord) : Store :=
  if fsExists fs r.current_path
  then (update_path st r.content_hash r.current_path now).1
  else (mark_invalid st r.content_hash).1

/-- `FileTracker.verify_paths`: snapshot all rows (`list_all(valid_only=
False)` materialises before the loop mutates), then re-confirm rows whose
`current_path` still exists (`update_path` to the same path) and invalidate
the rest, counting each kind. -/
def verify_paths (fs : FS) (s : Store) (now : Nat) : Store × Nat × Nat :=
  (list_all s false).foldl
    (fun acc r =>
      if fsExists fs r.current_path
      then ((update_path acc.1 r.content_hash r.current_path now).1, acc.2.1 + 1, acc.2.2)
      else ((mark_invalid acc.1 r.content_hash).1, acc.2.1, acc.2.2 + 1))
    (s, 0, 0)

end FileTracker

/-- Counts reported by the `sync` command: `verify_paths` results plus
discovery's new/moved tallies. -/
structure SyncResult where
  valid : Nat
  invalid : Nat
  new_files : Nat
  moved : Nat
deriving DecidableEq, Repr

/-- The discovery loop of `cli.main.sync`: for each supported file under
the directory, hash it (an unreadable file raises, which escapes the loop:
there is no per-file handler in source), count unknown identities as new,
and re-point known identities found at a different path (`update_path`),
counting them as moved. -/
def syncDiscover (fs : FS) (s : Store) (dir : String) (now : Nat) :
    Option (Store × Nat × Nat) :=
  (globSupported fs dir).foldlM
    (fun acc p =>
      match fsRead fs p with
      | none => none
      | some c =>
        match FileTracker.get_by_hash acc.1 (compute_hash c) with
        | none => some (acc.1, acc.2.1 + 1, acc.2.2)
        | some existing =>
          if existing.current_path ≠ p
          then some ((FileTracker.update_path acc.1 (compute_hash c) p now).1, acc.2.1, acc.2.2 + 1)
          else some acc)
    (s, 0, 0)

/-- `cli.main.sync` (reconciliation pass): first `verify_paths` over the
whole store, then discovery over the scanned directory; `none` when the
discovery loop raises on an unreadable file. -/
def sync (fs : FS) (s : Store) (dir : String) (now : Nat) :
    Option (Store × SyncResult) :=
  let vp := FileTracker.verify_paths fs s now
  (syncDiscover fs vp.1 dir now).map
    (fun d => (d.1, { valid := vp.2.1, invalid := vp.2.2,
                      new_files := d.2.1, moved := d.2.2 }))

/-- The metadata dict handed to / received from the external engine; the
core reads exactly these keys (`"type"` is modelled as `mtype`).  A missing
key is `none`. -/
structure Meta where
  source : Option String
  mtype : Option String
  size_bytes : Option Nat
  content_hash : Option Hash
deriving DecidableEq, Repr

/-- The empty metadata dict (`result.metadata or \x7b\x7d`). -/
def emptyMeta : Meta :=
  { source := none, mtype := none, size_bytes := none, content_hash := none }

/-- One ranked hit from the external engine's `query`. -/
structure EngineHit where
  id : Nat
  text : Option String
  score : Option Int
  metadata : Option Meta
deriving DecidableEq, Repr

/-- `searcher.SearchResult`. -/
structure SearchResult where
  id : Nat
  text : String
  score : Int
  source : String
  file_type : String
  content_hash : Hash
  current_path : String
deriving DecidableEq, Repr

namespace Searcher

/-- The resolution loop of `Searcher.search` over the engine's ranked
hits: read `content_hash` from the hit metadata (empty default; an empty
string is falsy, so no store lookup happens for it), prefer the store's
`current_path` when a record exists, otherwise fall back to the location
snapshot in the hit's metadata.  Total: the fallback never raises. -/
def search (s : Store) (results : List EngineHit) : List SearchResult :=
  results.foldl
    (fun acc result =>
      let md := result.metadata.getD emptyMeta
      let ch := md.content_hash.getD []
      let record := if ch ≠ [] then FileTracker.get_by_hash s ch else none
      let cp := match record with
        | some r => r.current_path
        | none => md.source.getD ""
      acc ++ [{ id := result.id, text := result.text.getD "",
                score := result.score.getD 0,
                source := md.source.getD "Unknown",
                file_type := md.mtype.getD "Unknown",
                content_hash := ch, current_path := cp }])
    []

end Searcher

/-- `indexer.IndexedDocument`. -/
structure IndexedDocument where
  content_hash : Hash
  text : String
  metadata : Meta
  file_record : Option FileRecord
deriving DecidableEq, Repr

namespace Indexer

/-- `Indexer.index_file`: `none` of the outer option is the uncaught
`IOError` from hashing an unreadable file; `some (s, none)` is the Python
`return None` with the store unchanged; the extraction collaborator is the
`extract` parameter (spec section 6), consulted only after the existence,
extension and already-admitted guards pass. -/
def index_file (fs : FS) (extract : String → Option String) (s : Store)
    (p : String) (min_text_length : Nat) (now : Nat) :
    Option (Store × Option IndexedDocument) :=
  if ¬ fsExists fs p then some (s, none)
  else if ¬ supportedFile p then some (s, none)
  else
    match fsRead fs p with
    | none => none
    | some c =>
      let h := compute_hash c
      let proceed : Bool :=
        match FileTracker.get_by_hash s h with
        | some existing => ! existing.is_valid
        | none => true
      if ¬ proceed then some (s, none)
      else
        match extract p with
        | none => some (s, none)
        | some t =>
          if t == "" || (strip t).length < min_text_length then some (s, none)
          else
            match FileTracker.add_file fs s p now with
            | none => none
            | some s' =>
              some (s', some
                { content_hash := h, text := strip t,
                  metadata := { source := some p, mtype := some (suffixLower p),
                                size_bytes := some c.length,
                                content_hash := some h },
                  file_record := FileTracker.get_by_hash s' h })

/-- `Indexer.index_directory`: fold `index_file` over the supported files
under the directory, collecting the produced documents; an uncaught
per-file `IOError` (outer `none`) escapes the loop. -/
def index_directory (fs : FS) (extract : String → Option String) (s : Store)
    (dir : String) (min_text_length : Nat) (now : Nat) :
    Option (Store × List IndexedDocument) :=
  (globSupported fs dir).foldlM
    (fun acc p =>
      (index_file fs extract acc.1 p min_text_length now).map
        (fun r => (r.1, match r.2 with
          | some d => acc.2 ++ [d]
          | none => acc.2)))
    (s, [])

end Indexer

/-- Store states reachable from the empty table by the public tracker
operations (including the bulk reconciliation passes). -/
inductive Reachable : Store → Prop
  | init : Reachable []
  | add {s s' : Store} {fs : FS} {p : String} {now : Nat} :
      Reachable s → FileTracker.add_file fs s p now = some s' → Reachable s'
  | upd {s : Store} {h : Hash} {p : String} {now : Nat} :
      Reachable s → Reachable (FileTracker.update_path s h p now).1
  | inv {s : Store} {h : Hash} :
      Reachable s → Reachable (FileTracker.mark_invalid s h).1
  | del {s : Store} {h : Hash} :
      Reachable s → Reachable (FileTracker.delete s h).1
  | ver {s : Store} {fs : FS} {now : Nat} :
      Reachable s → Reachable (FileTracker.verify_paths fs s now).1
  | syn {s s' : Store} {res : SyncResult} {fs : FS} {dir : String} {now : Nat} :
      Reachable s → sync fs s dir now = some (s', res) → Reachable s'

/-- The size/identity coupling every reachable row satisfies: a row's
`size_bytes` is the byte length of the content its identity was computed
from. -/
def SizeInv (s : Store) : Prop :=
  ∀ r ∈ s, ∃ c : Content, r.content_hash = compute_hash c ∧ r.size_bytes = c.length

section Lemmas

open FileTracker

theorem compute_hash_inj {c1 c2 : Content} (h : compute_hash c1 = compute_hash c2) :
    c1 = c2 := by
  simpa [compute_hash] using h

theorem compute_hash_ne_nil (c : Content) : compute_hash c ≠ [] := by
  simp [compute_hash]

theorem get_by_hash_some_hash {s : Store} {h : Hash} {r : FileRecord}
    (hg : get_by_hash s h = some r) : r.content_hash = h := by
  have := List.find?_some hg
  simpa using this

theorem get_by_hash_mem {s : Store} {h : Hash} {r : FileRecord}
    (hg : get_by_hash s h = some r) : r ∈ s :=
  List.mem_of_find?_eq_some hg

/-- `get_by_hash` commutes with a row map that preserves the key. -/
theorem get_by_hash_map {g : FileRecord → FileRecord}
    (hg : ∀ r, (g r).content_hash = r.content_hash) (s : Store) (h : Hash) :
    get_by_hash (s.map g) h = (get_by_hash s h).map g := by
  induction s with
  | nil => rfl
  | cons a t ih =>
    simp only [get_by_hash, List.map_cons] at *
    by_cases ha : (a.content_hash == h) = true
    · have ha' : ((g a).content_hash == h) = true := by rw [hg a]; exact ha
      rw [@List.find?_cons_of_pos _ (fun r => r.content_hash == h) (g a) (t.map g) ha',
        @List.find?_cons_of_pos _ (fun r => r.content_hash == h) a t ha]
      rfl
    · have ha' : ¬ ((g a).content_hash == h) = true := by rw [hg a]; exact ha
      rw [@List.find?_cons_of_neg _ (fun r => r.content_hash == h) (g a) (t.map g) ha',
        @List.find?_cons_of_neg _ (fun r => r.content_hash == h) a t ha]
      exact ih

/-- A key-preserving row map leaves the key column unchanged. -/
theorem map_hash_map {g : FileRecord → FileRecord}
    (hg : ∀ r, (g r).content_hash = r.content_hash) (s : Store) :
    (s.map g).map (fun r => r.content_hash) = s.map (fun r => r.content_hash) := by
  rw [List.map_map]
  exact List.map_congr_left (fun a _ => hg a)

theorem update_path_preserves_hash (h : Hash) (p : String) (now : Nat) :
    ∀ r : FileRecord,
      ((fun r => if r.content_hash == h then
          { r with current_path := p, last_seen_at := now, is_valid := true }
        else r) r).content_hash = r.content_hash := by
  intro r
  by_cases hr : (r.content_hash == h) = true <;> simp [hr]

theorem mark_invalid_preserves_hash (h : Hash) :
    ∀ r : FileRecord,
      ((fun r => if r.content_hash == h then { r with is_valid := false } else r) r).content_hash
        = r.content_hash := by
  intro r
  by_cases hr : (r.content_hash == h) = true <;> simp [hr]

theorem update_path_hashes (s : Store) (h : Hash) (p : String) (now : Nat) :
    ((update_path s h p now).1).map (fun r => r.content_hash)
      = s.map (fun r => r.content_hash) :=
  map_hash_map (update_path_preserves_hash h p now) s

theorem mark_invalid_hashes (s : Store) (h : Hash) :
    ((mark_invalid s h).1).map (fun r => r.content_hash)
      = s.map (fun r => r.content_hash) :=
  map_hash_map (mark_invalid_preserves_hash h) s

theorem get_by_hash_update_path (s : Store) (h : Hash) (p : String) (now : Nat) (h' : Hash) :
    get_by_hash (update_path s h p now).1 h'
      = (get_by_hash s h').map (fun r =>
          if r.content_hash == h then
            { r with current_path := p, last_seen_at := now, is_valid := true }
          else r) :=
  get_by_hash_map (update_path_preserves_hash h p now) s h'

theorem get_by_hash_mark_invalid (s : Store) (h : Hash) (h' : Hash) :
    get_by_hash (mark_invalid s h).1 h'
      = (get_by_hash s h').map (fun r =>
          if r.content_hash == h then { r with is_valid := false } else r) :=
  get_by_hash_map (mark_invalid_preserves_hash h) s h'

/-- Effect of one `verify_paths` step on a lookup. -/
theorem verifyStep_get (fs : FS) (now : Nat) (st : Store) (e : FileRecord) (h' : Hash) :
    get_by_hash (verifyStep fs now st e) h'
      = (get_by_hash st h').map (fun r =>
          if r.content_hash == e.content_hash then
            (if fsExists fs e.current_path then
              { r with current_path := e.current_path, last_seen_at := now, is_valid := true }
            else { r with is_valid := false })
          else r) := by
  unfold verifyStep
  by_cases hfs : fsExists fs e.current_path
  · rw [if_pos hfs, get_by_hash_update_path]
    cases get_by_hash st h' with
    | none => rfl
    | some r => simp [hfs]
  · rw [if_neg hfs, get_by_hash_mark_invalid]
    cases get_by_hash st h' with
    | none => rfl
    | some r => simp [hfs]

theorem verifyStep_hashes (fs : FS) (now : Nat) (st : Store) (e : FileRecord) :
    (verifyStep fs now st e).map (fun r => r.content_hash)
      = st.map (fun r => r.content_hash) := by
  unfold verifyStep
  by_cases hfs : fsExists fs e.current_path
  · rw [if_pos hfs]; exact update_path_hashes st e.content_hash e.current_path now
  · rw [if_neg hfs]; exact mark_invalid_hashes st e.content_hash

/-- The store component of the counting fold inside `verify_paths` is the
plain fold of `verifyStep`. -/
theorem verify_fold_store (fs : FS) (now : Nat) :
    ∀ (L : List FileRecord) (st : Store) (v i : Nat),
      (L.foldl
        (fun acc r =>
          if fsExists fs r.current_path
          then ((update_path acc.1 r.content_hash r.current_path now).1, acc.2.1 + 1, acc.2.2)
          else ((mark_invalid acc.1 r.content_hash).1, acc.2.1, acc.2.2 + 1))
        (st, v, i)).1
      = L.foldl (verifyStep fs now) st := by
  intro L
  induction L with
  | nil => intro st v i; rfl
  | cons e L ih =>
    intro st v i
    by_cases hfs : fsExists fs e.current_path
    · simpa [List.foldl_cons, hfs, verifyStep] using ih _ _ _
    · simpa [List.foldl_cons, hfs, verifyStep] using ih _ _ _

theorem verify_fold_hashes (fs : FS) (now : Nat) :
    ∀ (L : List FileRecord) (st : Store),
      (L.foldl (verifyStep fs now) st).map (fun r => r.content_hash)
        = st.map (fun r => r.content_hash) := by
  intro L
  induction L with
  | nil => intro st; rfl
  | cons e L ih =>
    intro st
    rw [List.foldl_cons, ih, verifyStep_hashes]

theorem verify_fold_frame (fs : FS) (now : Nat) :
    ∀ (L : List FileRecord) (st : Store) (h : Hash),
      (∀ e ∈ L, e.content_hash ≠ h) →
      get_by_hash (L.foldl (verifyStep fs now) st) h = get_by_hash st h := by
  intro L
  induction L with
  | nil => intro st h _; rfl
  | cons e L ih =>
    intro st h hne
    rw [List.foldl_cons, ih _ _ (fun x hx => hne x (List.mem_cons_of_mem _ hx)),
      verifyStep_get]
    cases hg : get_by_hash st h with
    | none => rfl
    | some r =>
      have hr : r.content_hash = h := get_by_hash_some_hash hg
      have hne' : ¬ (r.content_hash == e.content_hash) = true := by
        simp only [beq_iff_eq, hr]
        exact fun hc => hne e (List.mem_cons_self e L) hc.symm
      simp only [Option.map_some']
      rw [if_neg hne']

/-- Folding the `verify_paths` steps over a snapshot whose keys are
distinct rewrites the looked-up row exactly by its own step. -/
theorem verify_fold_get (fs : FS) (now : Nat) :
    ∀ (L : List FileRecord) (st : Store) (r : FileRecord),
      ((L.map fun e => e.content_hash).Nodup) →
      (∀ e ∈ L, e.content_hash = r.content_hash → e = r) →
      get_by_hash st r.content_hash = some r →
      r ∈ L →
      get_by_hash (L.foldl (verifyStep fs now) st) r.content_hash
        = some (if fsExists fs r.current_path then
            { r with last_seen_at := now, is_valid := true }
          else { r with is_valid := false }) := by
  intro L
  induction L with
  | nil => intro st r _ _ _ hmem; cases hmem
  | cons e L ih =>
    intro st r hnd hmemeq hget hmem
    rw [List.foldl_cons]
    by_cases heq : e = r
    · subst heq
      have hnotin : ∀ x ∈ L, x.content_hash ≠ e.content_hash := by
        intro x hx hc
        have : e.content_hash ∈ L.map (fun e => e.content_hash) :=
          List.mem_map.mpr ⟨x, hx, hc⟩
        exact (List.nodup_cons.mp hnd).1 this
      rw [verify_fold_frame fs now L _ _ hnotin, verifyStep_get, hget]
      by_cases hfs : fsExists fs e.current_path <;> simp [hfs]
    · have hne : e.content_hash ≠ r.content_hash := fun hc => heq (hmemeq e (List.mem_cons_self e L) hc)
      have hmem' : r ∈ L := by
        cases List.mem_cons.mp hmem with
        | inl h => exact absurd h.symm heq
        | inr h => exact h
      have hget' : get_by_hash (verifyStep fs now st e) r.content_hash = some r := by
        rw [verifyStep_get, hget]
        have hbne : ¬ (r.content_hash == e.content_hash) = true := by
          simp only [beq_iff_eq]
          exact fun hc => hne hc.symm
        simp only [Option.map_some']
        rw [if_neg hbne]
      exact ih _ _ (List.nodup_cons.mp hnd).2
        (fun x hx => hmemeq x (List.mem_cons_of_mem _ hx)) hget' hmem'

/-- `verify_paths` re-confirms or invalidates each row according to
whether its recorded location still exists. -/
theorem verify_paths_get (fs : FS) (s : Store) (now : Nat) (r : FileRecord)
    (hnd : (s.map fun e => e.content_hash).Nodup)
    (hget : get_by_hash s r.content_hash = some r) :
    get_by_hash (verify_paths fs s now).1 r.content_hash
      = some (if fsExists fs r.current_path then
          { r with last_seen_at := now, is_valid := true }
        else { r with is_valid := false }) := by
  have hperm : (list_all s false).Perm s := by
    simpa [list_all, sortNewest] using List.perm_insertionSort newerFirst s
  have hperm' : ((list_all s false).map fun e => e.content_hash).Perm
      (s.map fun e => e.content_hash) := hperm.map _
  have hnd' : ((list_all s false).map fun e => e.content_hash).Nodup :=
    (hperm'.nodup_iff).mpr hnd
  have hmem : r ∈ list_all s false := hperm.mem_iff.mpr (get_by_hash_mem hget)
  have hmemeq : ∀ e ∈ list_all s false, e.content_hash = r.content_hash → e = r := by
    intro e he hc
    exact List.inj_on_of_nodup_map hnd (hperm.subset he) (get_by_hash_mem hget) hc
  unfold verify_paths
  rw [verify_fold_store, verify_fold_get fs now _ s r hnd' hmemeq hget hmem]

theorem verify_paths_hashes (fs : FS) (s : Store) (now : Nat) :
    ((verify_paths fs s now).1).map (fun r => r.content_hash)
      = s.map (fun r => r.content_hash) := by
  unfold verify_paths
  rw [verify_fold_store, verify_fold_hashes]

end Lemmas

section LikeLemmas

theorem likeMatch_percent (ps ts : List Char) :
    likeMatch ('%' :: ps) ts = true ↔ ∃ t, t <:+ ts ∧ likeMatch ps t = true := by
  simp [likeMatch, List.any_eq_true, List.mem_tails]

theorem likeMatch_lit (u : List Char) :
    ∀ ps ts, likeMatch ps ts = true → likeMatch (u ++ ps) (u ++ ts) = true := by
  induction u with
  | nil => intro ps ts h; simpa using h
  | cons c u ih =>
    intro ps ts h
    by_cases hc : c = '%'
    · subst hc
      rw [List.cons_append]
      exact (likeMatch_percent _ _).mpr ⟨u ++ ts, List.suffix_cons '%' (u ++ ts), ih ps ts h⟩
    · rw [List.cons_append, List.cons_append]
      simp only [likeMatch, if_neg hc]
      refine (Bool.and_eq_true _ _).mpr ⟨?_, ih ps ts h⟩
      simp

/-- Plain substring containment implies a SQLite `LIKE %q%` match. -/
theorem likeMatch_of_infix {q t : List Char} (h : q <:+: t) :
    likeMatch ('%' :: (q ++ ['%'])) t = true := by
  obtain ⟨u, v, rfl⟩ := h
  refine (likeMatch_percent _ _).mpr ⟨q ++ v, ?_, ?_⟩
  · have hsuf : q ++ v <:+ u ++ (q ++ v) := List.suffix_append u (q ++ v)
    simpa [List.append_assoc] using hsuf
  · exact likeMatch_lit q ['%'] v ((likeMatch_percent [] v).mpr ⟨[], List.nil_suffix, rfl⟩)

end LikeLemmas

section FoldLemmas

theorem foldl_append_map {α β : Type} (f : β → α) :
    ∀ (l : List β) (acc : List α),
      l.foldl (fun a x => a ++ [f x]) acc = acc ++ l.map f := by
  intro l
  induction l with
  | nil => intro acc; simp
  | cons x l ih => intro acc; simp [ih]

theorem fsExists_of_fsRead {fs : FS} {p : String} {c : Content}
    (h : fsRead fs p = some c) : fsExists fs p = true := by
  unfold fsRead at h
  unfold fsExists
  cases hl : fsLookup fs p with
  | none => rw [hl] at h; simp at h
  | some o => simp

end FoldLemmas

section NodupLemmas

open FileTracker

/-- Evaluation of `add_file` on a readable file: update in place on a key
conflict, append a fresh row otherwise. -/
theorem add_file_eq {fs : FS} {s : Store} {p : String} {now : Nat} {c : Content}
    (hread : fsRead fs p = some c) :
    add_file fs s p now =
      some (if s.any (fun r => r.content_hash == compute_hash c)
        then s.map (fun r =>
          if r.content_hash == compute_hash c then
            { r with current_path := p, last_seen_at := now, is_valid := true }
          else r)
        else s ++ [{ content_hash := compute_hash c, current_path := p,
                     original_path := p, file_type := suffixLower p,
                     size_bytes := c.length, indexed_at := now,
                     last_seen_at := now, is_valid := true }]) := by
  unfold add_file
  rw [if_neg (by simp [fsExists_of_fsRead hread]), hread]

/-- `add_file` never raises on a readable file. -/
theorem add_file_isSome {fs : FS} {s : Store} {p : String} {now : Nat} {c : Content}
    (hread : fsRead fs p = some c) : (add_file fs s p now).isSome := by
  rw [add_file_eq hread]
  rfl

theorem add_file_hashes_nodup {fs : FS} {s s' : Store} {p : String} {now : Nat}
    (hnd : (s.map fun r => r.content_hash).Nodup)
    (h : add_file fs s p now = some s') :
    (s'.map fun r => r.content_hash).Nodup := by
  by_cases hex : fsExists fs p
  · cases hread : fsRead fs p with
    | none =>
      unfold add_file at h
      rw [if_neg (by simp [hex]), hread] at h
      cases h
    | some c =>
      rw [add_file_eq hread] at h
      have hs' := Option.some.inj h
      subst hs'
      by_cases hany : (s.any fun r => r.content_hash == compute_hash c) = true
      · rw [if_pos hany, map_hash_map (update_path_preserves_hash (compute_hash c) p now)]
        exact hnd
      · rw [if_neg hany, List.map_append]
        refine List.nodup_append.mpr ⟨hnd, by simp, ?_⟩
        intro a ha hb
        simp only [List.map_cons, List.map_nil, List.mem_singleton] at hb
        subst hb
        obtain ⟨r, hr, hrh⟩ := List.mem_map.mp ha
        exact hany (List.any_eq_true.mpr ⟨r, hr, by simp [hrh]⟩)
  · unfold add_file at h
    rw [if_pos (by simp [hex])] at h
    cases h

theorem delete_hashes_nodup {s : Store} {h : Hash}
    (hnd : (s.map fun r => r.content_hash).Nodup) :
    (((delete s h).1).map fun r => r.content_hash).Nodup := by
  unfold delete
  exact ((List.filter_sublist s).map _).nodup hnd

theorem syncDiscover_fold_hashes (fs : FS) (dir : String) (now : Nat) :
    ∀ (L : List String) (acc out : Store × Nat × Nat),
      (L.foldlM
        (fun acc p =>
          match fsRead fs p with
          | none => none
          | some c =>
            match get_by_hash acc.1 (compute_hash c) with
            | none => some (acc.1, acc.2.1 + 1, acc.2.2)
            | some existing =>
              if existing.current_path ≠ p
              then some ((update_path acc.1 (compute_hash c) p now).1, acc.2.1, acc.2.2 + 1)
              else some acc)
        acc) = some out →
      out.1.map (fun r => r.content_hash) = acc.1.map (fun r => r.content_hash) := by
  intro L
  induction L with
  | nil =>
    intro acc out h
    simp only [List.foldlM_nil] at h
    cases h
    rfl
  | cons p L ih =>
    intro acc out h
    rw [List.foldlM_cons] at h
    cases hread : fsRead fs p with
    | none => simp [hread] at h
    | some c =>
      simp only [hread] at h
      cases hget : get_by_hash acc.1 (compute_hash c) with
      | none =>
        simp only [hget, Option.pure_def, Option.bind_eq_bind, Option.some_bind] at h
        exact ih (acc.1, acc.2.1 + 1, acc.2.2) out h
      | some existing =>
        simp only [hget, Option.pure_def, Option.bind_eq_bind, Option.some_bind] at h
        by_cases hne : existing.current_path ≠ p
        · rw [if_pos hne] at h
          have hih := ih ((update_path acc.1 (compute_hash c) p now).1, acc.2.1, acc.2.2 + 1) out h
          rwa [update_path_hashes] at hih
        · rw [if_neg hne] at h
          exact ih acc out h

theorem sync_hashes {fs : FS} {s s' : Store} {dir : String} {now : Nat} {res : SyncResult}
    (h : sync fs s dir now = some (s', res)) :
    s'.map (fun r => r.content_hash) = s.map (fun r => r.content_hash) := by
  have h' : Option.map
      (fun d => (d.1, ({ valid := (FileTracker.verify_paths fs s now).2.1,
                         invalid := (FileTracker.verify_paths fs s now).2.2,
                         new_files := d.2.1, moved := d.2.2 } : SyncResult)))
      (syncDiscover fs (FileTracker.verify_paths fs s now).1 dir now) = some (s', res) := h
  cases hd : syncDiscover fs (FileTracker.verify_paths fs s now).1 dir now with
  | none => rw [hd] at h'; cases h'
  | some out =>
    rw [hd] at h'
    simp only [Option.map_some'] at h'
    have h1 : out.1 = s' := congrArg Prod.fst (Option.some.inj h')
    have h2 := syncDiscover_fold_hashes fs dir now _ _ _ hd
    rw [h1] at h2
    rw [h2, verify_paths_hashes]

/-- Every state reachable through the public tracker operations keeps the
`content_hash` column duplicate-free: the primary key, not the location
column, is what stays unique. -/
theorem reachable_hashes_nodup {s : Store} (hs : Reachable s) :
    (s.map fun r => r.content_hash).Nodup := by
  induction hs with
  | init => simp
  | add _ hadd ih => exact add_file_hashes_nodup ih hadd
  | upd _ ih => rw [update_path_hashes]; exact ih
  | inv _ ih => rw [mark_invalid_hashes]; exact ih
  | del _ ih => exact delete_hashes_nodup ih
  | ver _ ih => rw [verify_paths_hashes]; exact ih
  | syn _ hsync ih => rw [sync_hashes hsync]; exact ih

end NodupLemmas

section Claims

open FileTracker

/-- C5 (amended): in every store state reachable by the public operations
(`add_file`, `update_path`, `mark_invalid`, `delete`, `verify_paths`,
`sync`), no two distinct records share a `content_hash` — the primary key
stays duplicate-free.  The claimed uniqueness of `current_location` among
valid records is not an invariant of the code (no constraint enforces it;
see the counterexample). -/
theorem claim5_identity_unique_reachable {s : Store} (hs : Reachable s) :
    (s.map fun r => r.content_hash).Nodup := by
  induction hs with
  | init => simp
  | add _ hadd ih => exact add_file_hashes_nodup ih hadd
  | upd _ ih => rw [update_path_hashes]; exact ih
  | inv _ ih => rw [mark_invalid_hashes]; exact ih
  | del _ ih => exact delete_hashes_nodup ih
  | ver _ ih => rw [verify_paths_hashes]; exact ih
  | syn _ hsync ih => rw [sync_hashes hsync]; exact ih

/-- C5 counterexample: admitting a file at one path, editing its content
in place, and admitting it again reaches a store with two distinct valid
records sharing one `current_location`, refuting the claimed valid-location
uniqueness invariant. -/
theorem claim5_counterexample :
    Reachable [({ content_hash := [256, 1], current_path := "/p/doc.pdf",
                  original_path := "/p/doc.pdf", file_type := ".pdf", size_bytes := 1,
                  indexed_at := 0, last_seen_at := 0, is_valid := true } : FileRecord),
               ({ content_hash := [256, 2], current_path := "/p/doc.pdf",
                  original_path := "/p/doc.pdf", file_type := ".pdf", size_bytes := 1,
                  indexed_at := 1, last_seen_at := 1, is_valid := true } : FileRecord)] ∧
    ({ content_hash := [256, 1], current_path := "/p/doc.pdf",
       original_path := "/p/doc.pdf", file_type := ".pdf", size_bytes := 1,
       indexed_at := 0, last_seen_at := 0, is_valid := true } : FileRecord)
      ≠ ({ content_hash := [256, 2], current_path := "/p/doc.pdf",
           original_path := "/p/doc.pdf", file_type := ".pdf", size_bytes := 1,
           indexed_at := 1, last_seen_at := 1, is_valid := true } : FileRecord) ∧
    ({ content_hash := [256, 1], current_path := "/p/doc.pdf",
       original_path := "/p/doc.pdf", file_type := ".pdf", size_bytes := 1,
       indexed_at := 0, last_seen_at := 0, is_valid := true } : FileRecord).is_valid = true ∧
    ({ content_hash := [256, 2], current_path := "/p/doc.pdf",
       original_path := "/p/doc.pdf", file_type := ".pdf", size_bytes := 1,
       indexed_at := 1, last_seen_at := 1, is_valid := true } : FileRecord).is_valid = true ∧
    ({ content_hash := [256, 1], current_path := "/p/doc.pdf",
       original_path := "/p/doc.pdf", file_type := ".pdf", size_bytes := 1,
       indexed_at := 0, last_seen_at := 0, is_valid := true } : FileRecord).current_path
      = ({ content_hash := [256, 2], current_path := "/p/doc.pdf",
           original_path := "/p/doc.pdf", file_type := ".pdf", size_bytes := 1,
           indexed_at := 1, last_seen_at := 1, is_valid := true } : FileRecord).current_path := by
  refine ⟨?_, by decide, by decide, by decide, by decide⟩
  have h1 : add_file [("/p/doc.pdf", some [1])] [] "/p/doc.pdf" 0 =
      some [({ content_hash := [256, 1], current_path := "/p/doc.pdf",
               original_path := "/p/doc.pdf", file_type := ".pdf", size_bytes := 1,
               indexed_at := 0, last_seen_at := 0, is_valid := true } : FileRecord)] := by
    decide
  have h2 : add_file [("/p/doc.pdf", some [2])]
      [({ content_hash := [256, 1], current_path := "/p/doc.pdf",
          original_path := "/p/doc.pdf", file_type := ".pdf", size_bytes := 1,
          indexed_at := 0, last_seen_at := 0, is_valid := true } : FileRecord)]
      "/p/doc.pdf" 1 =
      some [({ content_hash := [256, 1], current_path := "/p/doc.pdf",
               original_path := "/p/doc.pdf", file_type := ".pdf", size_bytes := 1,
               indexed_at := 0, last_seen_at := 0, is_valid := true } : FileRecord),
            ({ content_hash := [256, 2], current_path := "/p/doc.pdf",
               original_path := "/p/doc.pdf", file_type := ".pdf", size_bytes := 1,
               indexed_at := 1, last_seen_at := 1, is_valid := true } : FileRecord)] := by
    decide
  exact Reachable.add (Reachable.add Reachable.init h1) h2

/-- C5 witness: a concrete one-record store reached by one admission, for
which the amended invariant holds. -/
theorem claim5_witness :
    (([({ content_hash := [256, 1], current_path := "/p/doc.pdf",
          original_path := "/p/doc.pdf", file_type := ".pdf", size_bytes := 1,
          indexed_at := 0, last_seen_at := 0, is_valid := true } : FileRecord)] : Store).map
      fun r => r.content_hash).Nodup := by
  have h1 : add_file [("/p/doc.pdf", some [1])] [] "/p/doc.pdf" 0 =
      some [({ content_hash := [256, 1], current_path := "/p/doc.pdf",
               original_path := "/p/doc.pdf", file_type := ".pdf", size_bytes := 1,
               indexed_at := 0, last_seen_at := 0, is_valid := true } : FileRecord)] := by
    decide
  exact claim5_identity_unique_reachable (Reachable.add Reachable.init h1)

/-- C10: `mark_invalid` changes only the `is_valid` field of the record
with the targeted identity; every other field of that record, and every
other record (position by position), is unchanged. -/
theorem claim10_mark_invalid_frame (s : Store) (h : Hash) :
    ((mark_invalid s h).1).length = s.length ∧
    ∀ (i : Nat) (r : FileRecord), s[i]? = some r →
      ∃ r' : FileRecord, ((mark_invalid s h).1)[i]? = some r' ∧
        r'.content_hash = r.content_hash ∧
        r'.current_path = r.current_path ∧
        r'.original_path = r.original_path ∧
        r'.file_type = r.file_type ∧
        r'.size_bytes = r.size_bytes ∧
        r'.indexed_at = r.indexed_at ∧
        r'.last_seen_at = r.last_seen_at ∧
        (r.content_hash ≠ h → r' = r) ∧
        (r.content_hash = h → r'.is_valid = false) := by
  constructor
  · simp [mark_invalid]
  · intro i r hr
    refine ⟨if r.content_hash == h then { r with is_valid := false } else r, ?_, ?_⟩
    · simp only [mark_invalid, List.getElem?_map, hr, Option.map_some']
    · by_cases hch : r.content_hash = h <;> simp [hch]

/-- C10 witness: invalidating the only record of a concrete store flips
exactly its validity flag. -/
theorem claim10_witness :
    (([({ content_hash := [256, 1], current_path := "/p/doc.pdf",
          original_path := "/p/doc.pdf", file_type := ".pdf", size_bytes := 1,
          indexed_at := 0, last_seen_at := 0, is_valid := true } : FileRecord)] : Store))[0]?
      = some ({ content_hash := [256, 1], current_path := "/p/doc.pdf",
                original_path := "/p/doc.pdf", file_type := ".pdf", size_bytes := 1,
                indexed_at := 0, last_seen_at := 0, is_valid := true } : FileRecord) ∧
    (((FileTracker.mark_invalid
        [({ content_hash := [256, 1], current_path := "/p/doc.pdf",
            original_path := "/p/doc.pdf", file_type := ".pdf", size_bytes := 1,
            indexed_at := 0, last_seen_at := 0, is_valid := true } : FileRecord)]
        [256, 1]).1)[0]?).map (fun r => r.is_valid) = some false := by
  refine ⟨rfl, ?_⟩
  obtain ⟨r', hr', _, _, _, _, _, _, _, _, hv⟩ :=
    (claim10_mark_invalid_frame
      [({ content_hash := [256, 1], current_path := "/p/doc.pdf",
          original_path := "/p/doc.pdf", file_type := ".pdf", size_bytes := 1,
          indexed_at := 0, last_seen_at := 0, is_valid := true } : FileRecord)]
      [256, 1]).2 0
      ({ content_hash := [256, 1], current_path := "/p/doc.pdf",
         original_path := "/p/doc.pdf", file_type := ".pdf", size_bytes := 1,
         indexed_at := 0, last_seen_at := 0, is_valid := true } : FileRecord) rfl
  rw [hr', Option.map_some', hv rfl]

/-- Exactly one row carries a key that occurs in a duplicate-free key
column. -/
theorem countP_hash_eq_one {s : Store}
    (hnd : (s.map fun r => r.content_hash).Nodup)
    {h : Hash} {r0 : FileRecord} (hr0 : r0 ∈ s) (hh : r0.content_hash = h) :
    s.countP (fun r => r.content_hash == h) = 1 := by
  induction s with
  | nil => cases hr0
  | cons a t ih =>
    rw [List.map_cons, List.nodup_cons] at hnd
    rcases List.mem_cons.mp hr0 with hr | hmem
    · subst hr
      rw [@List.countP_cons_of_pos _ (fun r => r.content_hash == h) r0 t (by simp [hh])]
      have h0 : t.countP (fun r => r.content_hash == h) = 0 := by
        apply List.countP_eq_zero.mpr
        intro x hx hc
        exact hnd.1 (List.mem_map.mpr ⟨x, hx, by rw [beq_iff_eq.mp hc, hh]⟩)
      rw [h0]
    · have hane : ¬ (a.content_hash == h) = true := by
        simp only [beq_iff_eq]
        intro hc
        exact hnd.1 (List.mem_map.mpr ⟨r0, hmem, by rw [hh, ← hc]⟩)
      rw [@List.countP_cons_of_neg _ (fun r => r.content_hash == h) a t hane]
      exact ih hnd.2 hmem

/-- The conflict-update row map of `add_file`/`update_path` does not change
which rows match a key predicate. -/
theorem countP_hash_map_update (s : Store) (h hq : Hash) (p : String) (now : Nat) :
    (s.map (fun r =>
      if r.content_hash == h then
        { r with current_path := p, last_seen_at := now, is_valid := true }
      else r)).countP (fun r => r.content_hash == hq)
      = s.countP (fun r => r.content_hash == hq) := by
  rw [List.countP_map]
  apply List.countP_congr
  intro r _
  simp only [Function.comp_apply]
  rw [update_path_preserves_hash h p now r]

/-- C3: on a readable unchanged file, a second `add_file` hits the
`ON CONFLICT` update: the store keeps exactly one record for the file's
content identity, and its `indexed_at` (admission time) is what the first
call left. -/
theorem claim3_upsert_idempotent (fs : FS) (s s1 s2 : Store) (p : String) (c : Content)
    (n1 n2 : Nat)
    (hnd : (s.map fun r => r.content_hash).Nodup)
    (hread : fsRead fs p = some c)
    (h1 : add_file fs s p n1 = some s1)
    (h2 : add_file fs s1 p n2 = some s2) :
    s2.countP (fun r => r.content_hash == compute_hash c) = 1 ∧
    (get_by_hash s2 (compute_hash c)).map (fun r => r.indexed_at)
      = (get_by_hash s1 (compute_hash c)).map (fun r => r.indexed_at) := by
  rw [add_file_eq hread] at h1 h2
  have hs1 := Option.some.inj h1
  have hcount1 : s1.countP (fun r => r.content_hash == compute_hash c) = 1 := by
    subst hs1
    by_cases hany : (s.any fun r => r.content_hash == compute_hash c) = true
    · rw [if_pos hany, countP_hash_map_update]
      obtain ⟨r0, hr0, hr0h⟩ := List.any_eq_true.mp hany
      exact countP_hash_eq_one hnd hr0 (beq_iff_eq.mp hr0h)
    · rw [if_neg hany, List.countP_append]
      have h0 : s.countP (fun r => r.content_hash == compute_hash c) = 0 :=
        List.countP_eq_zero.mpr (fun r hr hc => hany (List.any_eq_true.mpr ⟨r, hr, hc⟩))
      simp [h0]
  have hany1 : (s1.any fun r => r.content_hash == compute_hash c) = true := by
    apply List.any_eq_true.mpr
    have hpos : 0 < s1.countP (fun r => r.content_hash == compute_hash c) := by
      rw [hcount1]; exact Nat.one_pos
    exact List.countP_pos.mp hpos
  rw [if_pos hany1] at h2
  have hs2 := Option.some.inj h2
  constructor
  · rw [← hs2, countP_hash_map_update]
    exact hcount1
  · rw [← hs2, get_by_hash_map (update_path_preserves_hash (compute_hash c) p n2)]
    cases hg : get_by_hash s1 (compute_hash c) with
    | none => rfl
    | some r =>
      simp only [Option.map_some']
      by_cases hrc : (r.content_hash == compute_hash c) = true <;> simp [hrc]

/-- C3 witness: admitting one concrete file twice leaves one record with
the first admission time. -/
theorem claim3_witness :
    ([({ content_hash := [256, 1], current_path := "/p/doc.pdf",
         original_path := "/p/doc.pdf", file_type := ".pdf", size_bytes := 1,
         indexed_at := 0, last_seen_at := 1, is_valid := true } : FileRecord)] : Store).countP
        (fun r => r.content_hash == compute_hash [1]) = 1 ∧
    (get_by_hash
        [({ content_hash := [256, 1], current_path := "/p/doc.pdf",
            original_path := "/p/doc.pdf", file_type := ".pdf", size_bytes := 1,
            indexed_at := 0, last_seen_at := 1, is_valid := true } : FileRecord)]
        (compute_hash [1])).map (fun r => r.indexed_at)
      = (get_by_hash
          [({ content_hash := [256, 1], current_path := "/p/doc.pdf",
              original_path := "/p/doc.pdf", file_type := ".pdf", size_bytes := 1,
              indexed_at := 0, last_seen_at := 0, is_valid := true } : FileRecord)]
          (compute_hash [1])).map (fun r => r.indexed_at) :=
  claim3_upsert_idempotent [("/p/doc.pdf", some [1])] []
    [({ content_hash := [256, 1], current_path := "/p/doc.pdf",
        original_path := "/p/doc.pdf", file_type := ".pdf", size_bytes := 1,
        indexed_at := 0, last_seen_at := 0, is_valid := true } : FileRecord)]
    [({ content_hash := [256, 1], current_path := "/p/doc.pdf",
        original_path := "/p/doc.pdf", file_type := ".pdf", size_bytes := 1,
        indexed_at := 0, last_seen_at := 1, is_valid := true } : FileRecord)]
    "/p/doc.pdf" [1] 0 1 (by decide) (by decide) (by decide) (by decide)

/-- C6: when a tracked file's location has disappeared, a reconciliation
pass flips the record to invalid but keeps it; when the location exists
again, a later pass flips it back to valid with `last_seen_at` advanced to
the pass timestamp. -/
theorem claim6_invalidation_reconfirmation (fs1 fs2 : FS) (s : Store) (n1 n2 : Nat)
    (r : FileRecord)
    (hnd : (s.map fun e => e.content_hash).Nodup)
    (hget : get_by_hash s r.content_hash = some r)
    (hgone : fsExists fs1 r.current_path = false)
    (hback : fsExists fs2 r.current_path = true)
    (hadv : r.last_seen_at < n2) :
    get_by_hash (verify_paths fs1 s n1).1 r.content_hash
      = some { r with is_valid := false } ∧
    get_by_hash (verify_paths fs2 (verify_paths fs1 s n1).1 n2).1 r.content_hash
      = some { r with last_seen_at := n2, is_valid := true } ∧
    r.last_seen_at < ({ r with last_seen_at := n2, is_valid := true } : FileRecord).last_seen_at := by
  have hp1 := verify_paths_get fs1 s n1 r hnd hget
  rw [if_neg (by simp [hgone])] at hp1
  refine ⟨hp1, ?_, hadv⟩
  have hnd1 : (((verify_paths fs1 s n1).1).map fun e => e.content_hash).Nodup := by
    rw [verify_paths_hashes]; exact hnd
  have hp2 := verify_paths_get fs2 (verify_paths fs1 s n1).1 n2
    ({ r with is_valid := false }) hnd1 hp1
  rw [if_pos (by simpa using hback)] at hp2
  exact hp2

/-- C6 witness: a concrete record invalidated by a pass against an empty
filesystem and reconfirmed by a pass after the file reappears. -/
theorem claim6_witness :
    get_by_hash (verify_paths []
        [({ content_hash := [256, 1], current_path := "/p/doc.pdf",
            original_path := "/p/doc.pdf", file_type := ".pdf", size_bytes := 1,
            indexed_at := 0, last_seen_at := 0, is_valid := true } : FileRecord)] 3).1
        [256, 1]
      = some ({ content_hash := [256, 1], current_path := "/p/doc.pdf",
                original_path := "/p/doc.pdf", file_type := ".pdf", size_bytes := 1,
                indexed_at := 0, last_seen_at := 0, is_valid := false } : FileRecord) ∧
    get_by_hash (verify_paths [("/p/doc.pdf", some [1])]
        (verify_paths []
          [({ content_hash := [256, 1], current_path := "/p/doc.pdf",
              original_path := "/p/doc.pdf", file_type := ".pdf", size_bytes := 1,
              indexed_at := 0, last_seen_at := 0, is_valid := true } : FileRecord)] 3).1 5).1
        [256, 1]
      = some ({ content_hash := [256, 1], current_path := "/p/doc.pdf",
                original_path := "/p/doc.pdf", file_type := ".pdf", size_bytes := 1,
                indexed_at := 0, last_seen_at := 5, is_valid := true } : FileRecord) ∧
    (({ content_hash := [256, 1], current_path := "/p/doc.pdf",
        original_path := "/p/doc.pdf", file_type := ".pdf", size_bytes := 1,
        indexed_at := 0, last_seen_at := 0, is_valid := true } : FileRecord)).last_seen_at < 5 :=
  claim6_invalidation_reconfirmation [] [("/p/doc.pdf", some [1])]
    [({ content_hash := [256, 1], current_path := "/p/doc.pdf",
        original_path := "/p/doc.pdf", file_type := ".pdf", size_bytes := 1,
        indexed_at := 0, last_seen_at := 0, is_valid := true } : FileRecord)] 3 5
    ({ content_hash := [256, 1], current_path := "/p/doc.pdf",
       original_path := "/p/doc.pdf", file_type := ".pdf", size_bytes := 1,
       indexed_at := 0, last_seen_at := 0, is_valid := true } : FileRecord)
    (by decide) (by decide) (by decide) (by decide) (by decide)

/-- C8: assuming every existing row's `size_bytes` matches the byte length
of the content behind its identity (true of every reachable store), a
(re)admission via `add_file` and a move confirmation via `update_path`
both leave the looked-up record's `size_bytes` equal to the byte length of
the file involved — re-admission and moves cannot change the length,
because the content identity pins the bytes; and `add_file` preserves the
size/identity coupling. -/
theorem claim8_size_bytes_freshness (fs : FS) (s : Store) (now : Nat)
    (hinv : SizeInv s) :
    (∀ (p : String) (c : Content) (s' : Store),
       fsRead fs p = some c → add_file fs s p now = some s' →
       (∀ r', get_by_hash s' (compute_hash c) = some r' → r'.size_bytes = c.length) ∧
       SizeInv s') ∧
    (∀ (q : String) (c : Content) (r' : FileRecord),
       fsRead fs q = some c →
       get_by_hash (update_path s (compute_hash c) q now).1 (compute_hash c) = some r' →
       r'.size_bytes = c.length) := by
  constructor
  · intro p c s' hread hadd
    rw [add_file_eq hread] at hadd
    have hs' := Option.some.inj hadd
    by_cases hany : (s.any fun r => r.content_hash == compute_hash c) = true
    · rw [if_pos hany] at hs'
      subst hs'
      constructor
      · intro r' hr'
        rw [get_by_hash_map (update_path_preserves_hash (compute_hash c) p now)] at hr'
        obtain ⟨r0, hr0, hfr0⟩ := Option.map_eq_some'.mp hr'
        obtain ⟨c', hh, hsz⟩ := hinv r0 (get_by_hash_mem hr0)
        have hc' : c' = c := by
          have hch : r0.content_hash = compute_hash c := get_by_hash_some_hash hr0
          exact compute_hash_inj (hh.symm.trans hch)
        rw [hc'] at hsz
        have hsame : r'.size_bytes = r0.size_bytes := by
          rw [← hfr0]
          by_cases hrc : (r0.content_hash == compute_hash c) = true <;> simp [hrc]
        rw [hsame, hsz]
      · intro x hx
        obtain ⟨r0, hr0, hfr0⟩ := List.mem_map.mp hx
        obtain ⟨c', hh, hsz⟩ := hinv r0 hr0
        refine ⟨c', ?_, ?_⟩
        · rw [← hfr0, update_path_preserves_hash (compute_hash c) p now r0]
          exact hh
        · rw [← hfr0]
          by_cases hrc : (r0.content_hash == compute_hash c) = true <;> simp [hrc, hsz]
    · rw [if_neg hany] at hs'
      subst hs'
      constructor
      · intro r' hr'
        have hfind : (s.find? fun r => r.content_hash == compute_hash c) = none := by
          apply List.find?_eq_none.mpr
          intro x hx
          exact fun hc => hany (List.any_eq_true.mpr ⟨x, hx, hc⟩)
        rw [get_by_hash, List.find?_append, hfind, Option.none_or] at hr'
        have : some ({ content_hash := compute_hash c, current_path := p,
                       original_path := p, file_type := suffixLower p,
                       size_bytes := c.length, indexed_at := now,
                       last_seen_at := now, is_valid := true } : FileRecord) = some r' := by
          simpa using hr'
        rw [← Option.some.inj this]
      · intro x hx
        rcases List.mem_append.mp hx with hmem | hmem
        · exact hinv x hmem
        · rw [List.mem_singleton] at hmem
          subst hmem
          exact ⟨c, rfl, rfl⟩
  · intro q c r' _ hr'
    simp only [update_path] at hr'
    rw [get_by_hash_map (update_path_preserves_hash (compute_hash c) q now)] at hr'
    obtain ⟨r0, hr0, hfr0⟩ := Option.map_eq_some'.mp hr'
    obtain ⟨c', hh, hsz⟩ := hinv r0 (get_by_hash_mem hr0)
    have hc' : c' = c := by
      have hch : r0.content_hash = compute_hash c := get_by_hash_some_hash hr0
      exact compute_hash_inj (hh.symm.trans hch)
    rw [hc'] at hsz
    have hsame : r'.size_bytes = r0.size_bytes := by
      rw [← hfr0]
      by_cases hrc : (r0.content_hash == compute_hash c) = true <;> simp [hrc]
    rw [hsame, hsz]

/-- C8 witness: re-admitting a concrete two-byte file and confirming its
move both leave `size_bytes = 2`. -/
theorem claim8_witness :
    (∀ r', get_by_hash
        [({ content_hash := [256, 1, 2], current_path := "/p/doc.pdf",
            original_path := "/p/doc.pdf", file_type := ".pdf", size_bytes := 2,
            indexed_at := 0, last_seen_at := 7, is_valid := true } : FileRecord)]
        (compute_hash [1, 2]) = some r' → r'.size_bytes = List.length [1, 2]) ∧
    SizeInv [({ content_hash := [256, 1, 2], current_path := "/p/doc.pdf",
                original_path := "/p/doc.pdf", file_type := ".pdf", size_bytes := 2,
                indexed_at := 0, last_seen_at := 7, is_valid := true } : FileRecord)] :=
  (claim8_size_bytes_freshness [("/p/doc.pdf", some [1, 2])]
    [({ content_hash := [256, 1, 2], current_path := "/p/doc.pdf",
        original_path := "/p/doc.pdf", file_type := ".pdf", size_bytes := 2,
        indexed_at := 0, last_seen_at := 3, is_valid := true } : FileRecord)] 7
    (by intro r hr
        rw [List.mem_singleton] at hr
        subst hr
        exact ⟨[1, 2], rfl, rfl⟩)).1
    "/p/doc.pdf" [1, 2]
    [({ content_hash := [256, 1, 2], current_path := "/p/doc.pdf",
        original_path := "/p/doc.pdf", file_type := ".pdf", size_bytes := 2,
        indexed_at := 0, last_seen_at := 7, is_valid := true } : FileRecord)]
    (by decide) (by decide)

/-- C7: `index_file` on an existing supported file returns absent without
consulting the extractor when a valid record already holds the file's
identity (the conclusion holds for every extractor); returns absent with
the store untouched when extraction yields nothing or too little text; and
only when both guards pass upserts the record and returns the document
bundle. -/
theorem claim7_admission_guard (fs : FS) (extract : String → Option String)
    (s : Store) (p : String) (minLen now : Nat)
    (hex : fsExists fs p = true) (hsup : supportedFile p = true) :
    (∀ (c : Content) (ex : FileRecord), fsRead fs p = some c →
       get_by_hash s (compute_hash c) = some ex → ex.is_valid = true →
       Indexer.index_file fs extract s p minLen now = some (s, none)) ∧
    (∀ c : Content, fsRead fs p = some c →
       (match get_by_hash s (compute_hash c) with
        | some ex => ex.is_valid = false
        | none => True) →
       (extract p = none ∨ ∃ t, extract p = some t ∧
          (t = "" ∨ (strip t).length < minLen)) →
       Indexer.index_file fs extract s p minLen now = some (s, none)) ∧
    (∀ (c : Content) (t : String), fsRead fs p = some c →
       (match get_by_hash s (compute_hash c) with
        | some ex => ex.is_valid = false
        | none => True) →
       extract p = some t → t ≠ "" → minLen ≤ (strip t).length →
       ∃ s', add_file fs s p now = some s' ∧
         Indexer.index_file fs extract s p minLen now =
           some (s', some
             { content_hash := compute_hash c, text := strip t,
               metadata := { source := some p, mtype := some (suffixLower p),
                             size_bytes := some c.length,
                             content_hash := some (compute_hash c) },
               file_record := get_by_hash s' (compute_hash c) })) := by
  refine ⟨?_, ?_, ?_⟩
  · intro c ex hread hget hv
    simp [Indexer.index_file, hex, hsup, hread, hget, hv]
  · intro c hread hget hextr
    cases hg : get_by_hash s (compute_hash c) with
    | some ex =>
      rw [hg] at hget
      rcases hextr with hnone | ⟨t, hsome, hshort⟩
      · simp [Indexer.index_file, hex, hsup, hread, hg, hget, hnone]
      · have hcond : (t == "" || decide ((strip t).length < minLen)) = true := by
          rcases hshort with h0 | hlen
          · simp [h0]
          · simp [hlen]
        simp [Indexer.index_file, hex, hsup, hread, hg, hget, hsome, hcond]
    | none =>
      rcases hextr with hnone | ⟨t, hsome, hshort⟩
      · simp [Indexer.index_file, hex, hsup, hread, hg, hnone]
      · have hcond : (t == "" || decide ((strip t).length < minLen)) = true := by
          rcases hshort with h0 | hlen
          · simp [h0]
          · simp [hlen]
        simp [Indexer.index_file, hex, hsup, hread, hg, hsome, hcond]
  · intro c t hread hget hsome hne hlen
    obtain ⟨c0, hc0⟩ : ∃ c0, add_file fs s p now = some c0 :=
      Option.isSome_iff_exists.mp (add_file_isSome hread)
    refine ⟨c0, hc0, ?_⟩
    have hcond : ¬ (t == "" || decide ((strip t).length < minLen)) = true := by
      simp only [Bool.or_eq_true, beq_iff_eq, decide_eq_true_eq]
      push_neg
      exact ⟨hne, hlen⟩
    cases hg : get_by_hash s (compute_hash c) with
    | some ex =>
      rw [hg] at hget
      simp [Indexer.index_file, hex, hsup, hread, hg, hget, hsome, hcond, hc0]
    | none =>
      simp [Indexer.index_file, hex, hsup, hread, hg, hsome, hcond, hc0]

/-- C7 witness: a concrete already-admitted valid file is skipped without
extraction. -/
theorem claim7_witness :
    Indexer.index_file [("/p/doc.pdf", some [1])] (fun _ => some "anything")
      [({ content_hash := [256, 1], current_path := "/p/doc.pdf",
          original_path := "/p/doc.pdf", file_type := ".pdf", size_bytes := 1,
          indexed_at := 0, last_seen_at := 0, is_valid := true } : FileRecord)]
      "/p/doc.pdf" 3 9 =
    some ([({ content_hash := [256, 1], current_path := "/p/doc.pdf",
              original_path := "/p/doc.pdf", file_type := ".pdf", size_bytes := 1,
              indexed_at := 0, last_seen_at := 0, is_valid := true } : FileRecord)], none) :=
  (claim7_admission_guard [("/p/doc.pdf", some [1])] (fun _ => some "anything")
    [({ content_hash := [256, 1], current_path := "/p/doc.pdf",
        original_path := "/p/doc.pdf", file_type := ".pdf", size_bytes := 1,
        indexed_at := 0, last_seen_at := 0, is_valid := true } : FileRecord)]
    "/p/doc.pdf" 3 9 (by decide) (by decide)).1 [1]
    ({ content_hash := [256, 1], current_path := "/p/doc.pdf",
       original_path := "/p/doc.pdf", file_type := ".pdf", size_bytes := 1,
       indexed_at := 0, last_seen_at := 0, is_valid := true } : FileRecord)
    (by decide) (by decide) (by decide)

/-- The resolution loop is an order-preserving pointwise map over the
engine's ranked hits. -/
theorem search_eq_map (s : Store) (hits : List EngineHit) :
    Searcher.search s hits = hits.map (fun result =>
      { id := result.id, text := result.text.getD "",
        score := result.score.getD 0,
        source := (result.metadata.getD emptyMeta).source.getD "Unknown",
        file_type := (result.metadata.getD emptyMeta).mtype.getD "Unknown",
        content_hash := (result.metadata.getD emptyMeta).content_hash.getD [],
        current_path :=
          match (if (result.metadata.getD emptyMeta).content_hash.getD [] ≠ [] then
              get_by_hash s ((result.metadata.getD emptyMeta).content_hash.getD [])
            else none) with
          | some r => r.current_path
          | none => (result.metadata.getD emptyMeta).source.getD "" }) :=
  foldl_append_map _ hits []

/-- C2: resolution preserves the number and order of the engine's ranked
hits (the i-th result resolves the i-th hit, keeping its id); a hit whose
metadata identity has a record in the store resolves to that record's
`current_path`; a hit with no metadata identity, or whose identity is
absent from the store, falls back to the location snapshot in its own
metadata — and since the resolver is a total function, the fallback never
raises. -/
theorem claim2_query_resolution (s : Store) (hits : List EngineHit) :
    (Searcher.search s hits).length = hits.length ∧
    (∀ (i : Nat) (hit : EngineHit) (res : SearchResult),
       hits[i]? = some hit → (Searcher.search s hits)[i]? = some res →
       res.id = hit.id ∧
       res.content_hash = (hit.metadata.getD emptyMeta).content_hash.getD [] ∧
       (∀ r : FileRecord,
          (hit.metadata.getD emptyMeta).content_hash.getD [] ≠ [] →
          get_by_hash s ((hit.metadata.getD emptyMeta).content_hash.getD []) = some r →
          res.current_path = r.current_path) ∧
       (((hit.metadata.getD emptyMeta).content_hash.getD [] = [] ∨
          get_by_hash s ((hit.metadata.getD emptyMeta).content_hash.getD []) = none) →
          res.current_path = (hit.metadata.getD emptyMeta).source.getD "")) := by
  constructor
  · rw [search_eq_map, List.length_map]
  · intro i hit res hhit hres
    rw [search_eq_map, List.getElem?_map, hhit, Option.map_some'] at hres
    have hres' : res = _ := (Option.some.inj hres).symm
    subst hres'
    refine ⟨rfl, rfl, ?_, ?_⟩
    · intro r hne hgetr
      simp only
      rw [if_pos hne, hgetr]
    · intro hor
      simp only
      rcases hor with h0 | hnone
      · rw [if_neg (by simp [h0])]
      · by_cases h0 : (hit.metadata.getD emptyMeta).content_hash.getD [] = []
        · rw [if_neg (by simp [h0])]
        · rw [if_pos h0, hnone]

/-- C2 witness: two concrete ranked hits — one whose identity is tracked
at a moved location, one whose identity is unknown to the store — resolve
in order to the fresh path and to the metadata snapshot respectively. -/
theorem claim2_witness :
    ({ id := 1, text := "tA", score := 5, source := "/old/q.pdf",
       file_type := ".pdf", content_hash := [256, 9],
       current_path := "/new/q.pdf" } : SearchResult).current_path = "/new/q.pdf" ∧
    ({ id := 2, text := "", score := 0, source := "/idx/b.pdf",
       file_type := "Unknown", content_hash := [256, 7],
       current_path := "/idx/b.pdf" } : SearchResult).current_path = "/idx/b.pdf" := by
  have h0 := ((claim2_query_resolution
      [({ content_hash := [256, 9], current_path := "/new/q.pdf",
          original_path := "/old/q.pdf", file_type := ".pdf", size_bytes := 1,
          indexed_at := 0, last_seen_at := 0, is_valid := true } : FileRecord)]
      [({ id := 1, text := some "tA", score := some 5,
          metadata := some { source := some "/old/q.pdf", mtype := some ".pdf",
                             size_bytes := some 1, content_hash := some [256, 9] } } : EngineHit),
       ({ id := 2, text := none, score := none,
          metadata := some { source := some "/idx/b.pdf", mtype := none,
                             size_bytes := none, content_hash := some [256, 7] } } : EngineHit)]).2
      0
      ({ id := 1, text := some "tA", score := some 5,
         metadata := some { source := some "/old/q.pdf", mtype := some ".pdf",
                            size_bytes := some 1, content_hash := some [256, 9] } } : EngineHit)
      ({ id := 1, text := "tA", score := 5, source := "/old/q.pdf",
         file_type := ".pdf", content_hash := [256, 9],
         current_path := "/new/q.pdf" } : SearchResult) rfl rfl).2.2.1
      ({ content_hash := [256, 9], current_path := "/new/q.pdf",
         original_path := "/old/q.pdf", file_type := ".pdf", size_bytes := 1,
         indexed_at := 0, last_seen_at := 0, is_valid := true } : FileRecord)
      (by decide) (by decide)
  have h1 := ((claim2_query_resolution
      [({ content_hash := [256, 9], current_path := "/new/q.pdf",
          original_path := "/old/q.pdf", file_type := ".pdf", size_bytes := 1,
          indexed_at := 0, last_seen_at := 0, is_valid := true } : FileRecord)]
      [({ id := 1, text := some "tA", score := some 5,
          metadata := some { source := some "/old/q.pdf", mtype := some ".pdf",
                             size_bytes := some 1, content_hash := some [256, 9] } } : EngineHit),
       ({ id := 2, text := none, score := none,
          metadata := some { source := some "/idx/b.pdf", mtype := none,
                             size_bytes := none, content_hash := some [256, 7] } } : EngineHit)]).2
      1
      ({ id := 2, text := none, score := none,
         metadata := some { source := some "/idx/b.pdf", mtype := none,
                            size_bytes := none, content_hash := some [256, 7] } } : EngineHit)
      ({ id := 2, text := "", score := 0, source := "/idx/b.pdf",
         file_type := "Unknown", content_hash := [256, 7],
         current_path := "/idx/b.pdf" } : SearchResult) rfl rfl).2.2.2
      (Or.inr (by decide))
  exact ⟨h0, h1⟩

/-- The discovery fold of `sync` succeeds exactly when every supported
file it visits is readable: hashing is the only failing step and nothing
catches its error. -/
theorem syncDiscover_fold_isSome (fs : FS) (now : Nat) :
    ∀ (L : List String) (acc : Store × Nat × Nat),
      (L.foldlM
        (fun (acc : Store × Nat × Nat) p =>
          match fsRead fs p with
          | none => none
          | some c =>
            match get_by_hash acc.1 (compute_hash c) with
            | none => some (acc.1, acc.2.1 + 1, acc.2.2)
            | some existing =>
              if existing.current_path ≠ p
              then some ((update_path acc.1 (compute_hash c) p now).1, acc.2.1, acc.2.2 + 1)
              else some acc)
        acc).isSome ↔ ∀ p ∈ L, (fsRead fs p).isSome := by
  intro L
  induction L with
  | nil =>
    intro acc
    simp [List.foldlM_nil]
  | cons p L ih =>
    intro acc
    rw [List.foldlM_cons]
    cases hread : fsRead fs p with
    | none =>
      simp only [hread, Option.pure_def, Option.bind_eq_bind, Option.none_bind]
      constructor
      · intro habs; cases habs
      · intro hall
        have hp := hall p (List.mem_cons_self p L)
        rw [hread] at hp
        cases hp
    | some c =>
      have htail : ((∀ q ∈ L, (fsRead fs q).isSome) ↔
          ∀ q ∈ p :: L, (fsRead fs q).isSome) := by
        constructor
        · intro hall q hq
          rcases List.mem_cons.mp hq with hqp | hqL
          · rw [hqp, hread]; rfl
          · exact hall q hqL
        · intro hall q hq
          exact hall q (List.mem_cons_of_mem _ hq)
      simp only [hread]
      cases hget : get_by_hash acc.1 (compute_hash c) with
      | none =>
        simp only [hget, Option.pure_def, Option.bind_eq_bind, Option.some_bind]
        rw [ih]
        exact htail
      | some existing =>
        simp only [hget]
        by_cases hne : existing.current_path ≠ p
        · rw [if_pos hne]
          simp only [Option.pure_def, Option.bind_eq_bind, Option.some_bind]
          rw [ih]
          exact htail
        · rw [if_neg hne]
          simp only [Option.pure_def, Option.bind_eq_bind, Option.some_bind]
          rw [ih]
          exact htail

/-- `index_file` never raises on a readable (or altogether absent) path:
only hashing an existing-but-unreadable file propagates an error. -/
theorem index_file_isSome (fs : FS) (extract : String → Option String)
    (s : Store) (p : String) (minLen now : Nat)
    (hread : (fsRead fs p).isSome) :
    (Indexer.index_file fs extract s p minLen now).isSome := by
  unfold Indexer.index_file
  split
  · rfl
  split
  · rfl
  split
  · rename_i hr
    rw [hr] at hread
    cases hread
  rename_i c hr
  dsimp only
  split
  · rfl
  split
  · rfl
  rename_i t hextr
  split
  · rfl
  split
  · rename_i hadd
    have hs := @add_file_isSome fs s p now c hr
    rw [hadd] at hs
    cases hs
  rfl

/-- The `index_directory` fold succeeds whenever every visited supported
file is readable (extraction failures are skipped, not raised). -/
theorem index_directory_fold_isSome (fs : FS) (extract : String → Option String)
    (dir : String) (minLen now : Nat) :
    ∀ (L : List String) (acc : Store × List IndexedDocument),
      (∀ p ∈ L, (fsRead fs p).isSome) →
      (L.foldlM
        (fun acc p =>
          (Indexer.index_file fs extract acc.1 p minLen now).map
            (fun r => (r.1, match r.2 with
              | some d => acc.2 ++ [d]
              | none => acc.2)))
        acc).isSome := by
  intro L
  induction L with
  | nil =>
    intro acc _
    simp [List.foldlM_nil]
  | cons p L ih =>
    intro acc hall
    rw [List.foldlM_cons]
    have hif := index_file_isSome fs extract acc.1 p minLen now
      (hall p (List.mem_cons_self p L))
    cases hf : Indexer.index_file fs extract acc.1 p minLen now with
    | none => rw [hf] at hif; cases hif
    | some r =>
      simp only [hf, Option.map_some', Option.pure_def, Option.bind_eq_bind,
        Option.some_bind]
      exact ih _ (fun q hq => hall q (List.mem_cons_of_mem _ hq))

/-- C4 (amended): a reconciliation pass (`sync`) reports its aggregate
counts exactly when every supported file under the scanned directory is
readable — a file unreadable during identity computation raises an
uncaught error that aborts the whole pass, contrary to the claim; files
whose text extraction fails, by contrast, are skipped and the directory
admission batch continues. -/
theorem claim4_reconciliation_abort (fs : FS) (s s0 : Store) (dir : String)
    (now minLen : Nat) (extract : String → Option String) :
    ((sync fs s dir now).isSome ↔
       ∀ p ∈ globSupported fs dir, (fsRead fs p).isSome) ∧
    ((∀ p ∈ globSupported fs dir, (fsRead fs p).isSome) →
       (Indexer.index_directory fs extract s0 dir minLen now).isSome) := by
  constructor
  · have hiff : (syncDiscover fs (verify_paths fs s now).1 dir now).isSome ↔
        ∀ p ∈ globSupported fs dir, (fsRead fs p).isSome :=
      syncDiscover_fold_isSome fs now (globSupported fs dir)
        ((verify_paths fs s now).1, 0, 0)
    rw [← hiff]
    cases hd : syncDiscover fs (verify_paths fs s now).1 dir now with
    | none => simp [sync, hd]
    | some out => simp [sync, hd]
  · intro hall
    exact index_directory_fold_isSome fs extract dir minLen now
      (globSupported fs dir) (s0, []) hall

/-- C4 counterexample: a single supported file that exists but cannot be
read makes the whole `sync` pass raise (return `none`): the pass aborts
and reports no counts, refuting skip-and-continue. -/
theorem claim4_counterexample :
    fsExists [("/d/a.pdf", none)] "/d/a.pdf" = true ∧
    supportedFile "/d/a.pdf" = true ∧
    isUnder "/d" "/d/a.pdf" = true ∧
    sync [("/d/a.pdf", none)] [] "/d" 0 = none := by
  decide

/-- C4 witness: with every supported file readable, the pass completes and
reports counts. -/
theorem claim4_witness :
    (sync [("/d/a.pdf", some [1])] [] "/d" 0).isSome :=
  (claim4_reconciliation_abort [("/d/a.pdf", some [1])] [] [] "/d" 0 3
    (fun _ => none)).1.mpr (by decide)

/-- C9 (amended): `search_files` returns at most `limit` records, ordered
newest-first by `indexed_at`; every returned record is a stored record
whose `current_path` matches the SQLite pattern `%query%` — ASCII
case-insensitive, with `%` and `_` as wildcards — rather than necessarily
containing the query as an exact substring (see the counterexample); and
every stored record whose `current_path` contains the query as an exact
substring LIKE-matches, hence is returned once the limit covers the whole
store. -/
theorem claim9_name_search (s : Store) (q : String) (limit : Nat) :
    (search_files s q limit).length ≤ limit ∧
    List.Sorted newerFirst (search_files s q limit) ∧
    (∀ r ∈ search_files s q limit,
       r ∈ s ∧ likeMatch ('%' :: (q.data ++ ['%'])) r.current_path.data = true) ∧
    (∀ r ∈ s, q.data <:+: r.current_path.data →
       r ∈ search_files s q s.length) := by
  refine ⟨List.length_take_le _ _, ?_, ?_, ?_⟩
  · exact List.Pairwise.sublist (List.take_sublist _ _)
      (List.sorted_insertionSort newerFirst _)
  · intro r hr
    have hr1 : r ∈ sortNewest (s.filter (fun r =>
        likeMatch ('%' :: (q.data ++ ['%'])) r.current_path.data)) :=
      (List.take_sublist _ _).subset hr
    have hr2 : r ∈ s.filter (fun r =>
        likeMatch ('%' :: (q.data ++ ['%'])) r.current_path.data) :=
      (List.perm_insertionSort newerFirst _).subset hr1
    exact ⟨(List.mem_filter.mp hr2).1, (List.mem_filter.mp hr2).2⟩
  · intro r hr hinf
    have hf : r ∈ s.filter (fun r =>
        likeMatch ('%' :: (q.data ++ ['%'])) r.current_path.data) :=
      List.mem_filter.mpr ⟨hr, likeMatch_of_infix hinf⟩
    have hmem : r ∈ sortNewest (s.filter (fun r =>
        likeMatch ('%' :: (q.data ++ ['%'])) r.current_path.data)) :=
      (List.perm_insertionSort newerFirst _).mem_iff.mpr hf
    have hlen : (sortNewest (s.filter (fun r =>
        likeMatch ('%' :: (q.data ++ ['%'])) r.current_path.data))).length ≤ s.length := by
      unfold sortNewest
      rw [(List.perm_insertionSort newerFirst _).length_eq]
      exact List.length_filter_le _ _
    unfold search_files
    rw [List.take_of_length_le hlen]
    exact hmem

/-- C9 counterexample: SQLite `LIKE` is ASCII case-insensitive, so the
upper-case query "A" returns a record whose `current_path` "/a.pdf" does
not contain "A" as a substring, refuting the exact-substring claim. -/
theorem claim9_counterexample :
    search_files
      [({ content_hash := [256, 1], current_path := "/a.pdf",
          original_path := "/a.pdf", file_type := ".pdf", size_bytes := 1,
          indexed_at := 0, last_seen_at := 0, is_valid := true } : FileRecord)] "A" 5
      = [({ content_hash := [256, 1], current_path := "/a.pdf",
            original_path := "/a.pdf", file_type := ".pdf", size_bytes := 1,
            indexed_at := 0, last_seen_at := 0, is_valid := true } : FileRecord)] ∧
    ¬ ("A".data <:+: "/a.pdf".data) := by
  constructor
  · decide
  · decide

/-- C9 witness: a stored record whose path contains the query exactly is
returned. -/
theorem claim9_witness :
    ({ content_hash := [256, 1], current_path := "/p/doc.pdf",
       original_path := "/p/doc.pdf", file_type := ".pdf", size_bytes := 1,
       indexed_at := 0, last_seen_at := 0, is_valid := true } : FileRecord) ∈
      search_files
        [({ content_hash := [256, 1], current_path := "/p/doc.pdf",
            original_path := "/p/doc.pdf", file_type := ".pdf", size_bytes := 1,
            indexed_at := 0, last_seen_at := 0, is_valid := true } : FileRecord)] "doc" 1 :=
  (claim9_name_search
    [({ content_hash := [256, 1], current_path := "/p/doc.pdf",
        original_path := "/p/doc.pdf", file_type := ".pdf", size_bytes := 1,
        indexed_at := 0, last_seen_at := 0, is_valid := true } : FileRecord)] "doc" 1).2.2.2
    ({ content_hash := [256, 1], current_path := "/p/doc.pdf",
       original_path := "/p/doc.pdf", file_type := ".pdf", size_bytes := 1,
       indexed_at := 0, last_seen_at := 0, is_valid := true } : FileRecord)
    (by decide) (by decide)

/-- C1: admit a file at `P`; move it (same bytes) to a supported path `Q`
under the scanned directory; run `sync`.  The pass invalidates the stale
record first (`valid 0, invalid 1`) and then discovery reclassifies it as
moved rather than new (`new 0, moved 1`); afterwards lookup by location
finds the record with the same content identity at `Q`, with
`current_path = Q`, and lookup at `P` is absent. -/
theorem claim1_move_detection (P Q dir : String) (c : Content) (n1 n2 : Nat) (s1 : Store)
    (hPQ : P ≠ Q) (hsup : supportedFile Q = true) (hund : isUnder dir Q = true)
    (hadd : add_file [(P, some c)] [] P n1 = some s1) :
    ∃ (s2 : Store) (r : FileRecord),
      sync [(Q, some c)] s1 dir n2 =
        some (s2, { valid := 0, invalid := 1, new_files := 0, moved := 1 }) ∧
      get_by_path s2 Q = some r ∧
      r.content_hash = compute_hash c ∧
      r.current_path = Q ∧
      get_by_path s2 P = none := by
  have hread0 : fsRead [(P, some c)] P = some c := by simp [fsRead, fsLookup]
  rw [add_file_eq hread0] at hadd
  simp only [List.any_nil, List.nil_append] at hadd
  rw [if_neg (by simp)] at hadd
  have hs1 : s1 = [({ content_hash := compute_hash c, current_path := P,
                      original_path := P, file_type := suffixLower P,
                      size_bytes := c.length, indexed_at := n1,
                      last_seen_at := n1, is_valid := true } : FileRecord)] :=
    (Option.some.inj hadd).symm
  subst hs1
  have hQP : (Q == P) = false := beq_eq_false_iff_ne.mpr (Ne.symm hPQ)
  refine ⟨[({ content_hash := compute_hash c, current_path := Q,
              original_path := P, file_type := suffixLower P,
              size_bytes := c.length, indexed_at := n1,
              last_seen_at := n2, is_valid := true } : FileRecord)],
    ({ content_hash := compute_hash c, current_path := Q,
       original_path := P, file_type := suffixLower P, size_bytes := c.length,
       indexed_at := n1, last_seen_at := n2, is_valid := true } : FileRecord),
    ?_, ?_, rfl, rfl, ?_⟩
  · have hQP' : Q ≠ P := Ne.symm hPQ
    simp [sync, verify_paths, list_all, sortNewest, List.insertionSort,
      List.orderedInsert, fsExists, fsLookup, hQP, mark_invalid, syncDiscover,
      globSupported, hund, hsup, fsRead, get_by_hash, update_path, hPQ, hQP']
  · simp [get_by_path]
  · simp [get_by_path, hQP]

/-- C1 witness: a concrete one-byte file admitted at `/p/x.pdf` and found
at `/q/x.pdf` by a pass over `/q` is reported as moved, not new. -/
theorem claim1_witness :
    ∃ (s2 : Store) (r : FileRecord),
      sync [("/q/x.pdf", some [7])]
        [({ content_hash := [256, 7], current_path := "/p/x.pdf",
            original_path := "/p/x.pdf", file_type := ".pdf", size_bytes := 1,
            indexed_at := 0, last_seen_at := 0, is_valid := true } : FileRecord)] "/q" 5 =
        some (s2, { valid := 0, invalid := 1, new_files := 0, moved := 1 }) ∧
      get_by_path s2 "/q/x.pdf" = some r ∧
      r.content_hash = compute_hash [7] ∧
      r.current_path = "/q/x.pdf" ∧
      get_by_path s2 "/p/x.pdf" = none :=
  claim1_move_detection "/p/x.pdf" "/q/x.pdf" "/q" [7] 0 5
    [({ content_hash := [256, 7], current_path := "/p/x.pdf",
        original_path := "/p/x.pdf", file_type := ".pdf", size_bytes := 1,
        indexed_at := 0, last_seen_at := 0, is_valid := true } : FileRecord)]
    (by decide) (by decide) (by decide) (by decide)

end Claims
